import Mathlib

set_option maxRecDepth 4000

/-!
Verification of the Hexuki engine core (bitboard position representation and
minimax search driver) against its design specification.  Definitions follow
the C++ sources `core/bitboard.cpp`, `ai/minimax.cpp` and `include/ai/minimax.h`.
The geometry tables, the `Move` struct, and the Zobrist key functions live in
headers that are not part of the available sources; those are modelled from the
specification and flagged as such in their doc comments.
-/

namespace hexuki

/-- Modelled from the spec: player constants (the header defining `PLAYER_1` /
`PLAYER_2` is missing from the sources; the spec and the position format use
1 for P1 and 2 for P2). -/
def PLAYER_1 : Int := 1

/-- Modelled from the spec: second player constant. -/
def PLAYER_2 : Int := 2

/-- Number of hexes on the board (spec section 3: hex identifiers lie in [0,18]). -/
def NUM_HEXES : Nat := 19

/-- Center hex identifier (spec section 3: hex 9 is the board center). -/
def CENTER_HEX : Nat := 9

/-- Tile value initially placed on the center hex (spec: initial position has
tile value 1 on hex 9). -/
def STARTING_TILE : Nat := 1

/-- Largest legal tile value (spec section 3: tile values lie in [1,9]). -/
def MAX_TILE_VALUE : Int := 9

/-- Modelled from the spec: static `(row, col)` table for the 19 hexes
(`HEX_POSITIONS` in the missing geometry header).  Rows lie in [0,8] and
columns in [0,4]; the five columns hold 3-4-5-4-3 hexes in a doubled-row
coordinate system with hex 9 at the center cell (4,2), the center column
being hexes 7-11 and the corners being hexes 0, 2, 16, 18. -/
def HEX_POSITIONS : List (Int × Int) :=
  [(2,0), (4,0), (6,0),
   (1,1), (3,1), (5,1), (7,1),
   (0,2), (2,2), (4,2), (6,2), (8,2),
   (1,3), (3,3), (5,3), (7,3),
   (2,4), (4,4), (6,4)]

/-- Modelled from the spec: the 9 x 5 reverse lookup table `ROW_COL_TO_HEX`
(flattened row-major, entry `5*row + col`), with `none` for the 26 grid cells
that hold no hex. -/
def ROW_COL_TO_HEX : List (Option Nat) :=
  [none, none, some 7, none, none,
   none, some 3, none, some 12, none,
   some 0, none, some 8, none, some 16,
   none, some 4, none, some 13, none,
   some 1, none, some 9, none, some 17,
   none, some 5, none, some 14, none,
   some 2, none, some 10, none, some 18,
   none, some 6, none, some 15, none,
   none, none, some 11, none, none]

/-- `findHexAt(row, col)`: O(1) table lookup with bounds check, returning the
hex at a grid cell or nothing (the C++ code returns -1). -/
def findHexAt (row col : Int) : Option Nat :=
  if row < 0 || 9 ≤ row || col < 0 || 5 ≤ col then none
  else ROW_COL_TO_HEX.getD (row.toNat * 5 + col.toNat) none

/-- Modelled from the spec: the six hex-grid neighbor direction offsets
`HEX_DIRECTIONS` (in the doubled-row coordinates two cells are adjacent iff
their coordinates differ by one of these). -/
def HEX_DIRECTIONS : List (Int × Int) :=
  [(-2, 0), (2, 0), (-1, -1), (-1, 1), (1, -1), (1, 1)]

/-- Modelled from the spec: the 15 chain starters (`CHAIN_STARTERS`): the six
hex-grid axes give three undirected line directions, and each of the 15
maximal lines is walked once from its canonical starting hex. -/
def CHAIN_STARTERS : List (Nat × (Int × Int)) :=
  [(0, (2,0)), (3, (2,0)), (7, (2,0)), (12, (2,0)), (16, (2,0)),
   (0, (1,1)), (1, (1,1)), (2, (1,1)), (3, (1,1)), (7, (1,1)),
   (7, (1,-1)), (12, (1,-1)), (16, (1,-1)), (17, (1,-1)), (18, (1,-1))]

/-- Modelled from the spec: P1's scoring chains (`P1_CHAINS`), the five
down-right diagonals. -/
def P1_CHAINS : List (List Nat) :=
  [[0,4,9,14,18], [1,5,10,15], [2,6,11], [3,8,13,17], [7,12,16]]

/-- Modelled from the spec: P2's scoring chains (`P2_CHAINS`), the five
down-left diagonals. -/
def P2_CHAINS : List (List Nat) :=
  [[16,13,9,5,2], [7,3,0], [12,8,4,1], [17,14,10,6], [18,15,11]]

/-- Modelled from the spec: the `Move` struct from the missing `core/move.h`
(a pair of hex identifier and tile value, stored as machine ints). -/
structure Move where
  hexId : Int
  tileValue : Int
deriving DecidableEq, Repr

/-- Modelled from the spec: the default-constructed `Move()` sentinel used for
"invalid move" results. -/
def Move.null : Move := ⟨-1, -1⟩

/-- Modelled from the spec: `Move::isValid()` — hex identifiers lie in [0,18]
and tile values in [1,9] (spec section 3 data model). -/
def Move.isValid (m : Move) : Bool :=
  0 ≤ m.hexId && m.hexId < 19 && 1 ≤ m.tileValue && m.tileValue ≤ MAX_TILE_VALUE

/-- Modelled from the spec: Zobrist key for a `(hexId, tileValue)` placement
(`Zobrist::getTileHash`).  The real keys are fixed pseudo-random 64-bit
numbers from a deterministically seeded generator; here a fixed mixing
formula stands in for the key table (no claim depends on the key values). -/
def tileKey (h v : Int) : Nat :=
  ((h + 40).toNat * 2654435761 + (v + 520).toNat * 40503 + 1013904223) % 2 ^ 32

/-- Modelled from the spec: per-side Zobrist key (`Zobrist::getPlayerHash`). -/
def playerKey (p : Int) : Nat :=
  if p == PLAYER_1 then 0x9E3779B9 else 0x7F4A7C15

/-- The mutable position (`HexukiBitboard`): occupancy bitmask (`uint32_t`),
per-hex tile values (`uint8_t[19]`), the two ordered tile bags, side to move,
the two derived symmetry flags and the incrementally maintained hash. -/
structure Board where
  hexOccupied : Nat
  hexValues : List Nat
  p1AvailableTiles : List Int
  p2AvailableTiles : List Int
  currentPlayer : Int
  symmetryStillPossible : Bool
  tilesAreIdentical : Bool
  zobristHash : Nat
deriving DecidableEq, Repr

/-- `isHexOccupied` (inlined in the missing bitboard.h; modelled from the spec:
bit `i` of the occupancy mask). -/
def isHexOccupied (b : Board) (h : Int) : Bool :=
  if h < 0 then false else b.hexOccupied.testBit h.toNat

/-- `getTileValue` (inlined in the missing bitboard.h; modelled from the spec:
entry `i` of the per-hex value array, 0 meaning empty). -/
def getTileValue (b : Board) (h : Nat) : Nat :=
  b.hexValues.getD h 0

/-- `Zobrist::hash(board)`: modelled from the spec — XOR of the keys of all
placed tiles and the side-to-move key. -/
def fullHash (b : Board) : Nat :=
  ((List.range NUM_HEXES).foldl
    (fun acc (i : Nat) =>
      if isHexOccupied b i then acc ^^^ tileKey i (getTileValue b i) else acc) 0)
  ^^^ playerKey b.currentPlayer

/-- `tilesMatch`: whether two tile vectors hold the same values in any order
(the C++ helper sorts both and compares). -/
def tilesMatch (t1 t2 : List Int) : Bool :=
  decide ((t1 : Multiset Int) = (t2 : Multiset Int))

/-- `HexukiBitboard::isGameOver`: all 19 hexes filled (counts occupancy bits). -/
def isGameOver (b : Board) : Bool :=
  NUM_HEXES ≤ ((List.range NUM_HEXES).filter (fun i => isHexOccupied b i)).length

/-- `HexukiBitboard::getAvailableTiles`: the tile array of one player. -/
def getAvailableTiles (b : Board) (player : Int) : List Int :=
  if player == PLAYER_1 then b.p1AvailableTiles else b.p2AvailableTiles

/-- `HexukiBitboard::isTileAvailable`: range check then membership in the
player's tile array. -/
def isTileAvailable (b : Board) (player : Int) (tileValue : Int) : Bool :=
  if tileValue < 1 || MAX_TILE_VALUE < tileValue then false
  else
    let tiles := if player == PLAYER_1 then b.p1AvailableTiles else b.p2AvailableTiles
    tiles.contains tileValue

/-- `HexukiBitboard::hasAdjacentOccupied` via the precomputed adjacency lists:
some neighbor (by the six direction offsets) is occupied. -/
def hasAdjacentOccupied (b : Board) (h : Int) : Bool :=
  if h < 0 || (NUM_HEXES : Int) ≤ h then false
  else
    let pos := HEX_POSITIONS.getD h.toNat (0, 0)
    HEX_DIRECTIONS.any fun d =>
      match findHexAt (pos.1 + d.1) (pos.2 + d.2) with
      | some adj => isHexOccupied b adj
      | none => false

/-- One walk step target: the hex one cell further in direction `dir`. -/
def nextHex (c : Nat) (dir : Int × Int) : Option Nat :=
  let pos := HEX_POSITIONS.getD c (0, 0)
  findHexAt (pos.1 + dir.1) (pos.2 + dir.2)

/-- The runs (maximal occupied segments) seen while walking one chain line,
each with its length and whether it passes through `target`.  This mirrors the
walk loop of `checkChainLengthConstraint`, which closes a run at every empty
cell and at the board edge.  Fuel bounds the walk (every direction strictly
increases the row, so a line has at most 5 cells; fuel 12 is never exhausted). -/
def chainRunsGo (b : Board) (target : Nat) (dir : Int × Int) :
    Nat → Option Nat → Nat → Bool → List (Nat × Bool)
  | 0, _, len, flag => if 0 < len then [(len, flag)] else []
  | _ + 1, none, len, flag => if 0 < len then [(len, flag)] else []
  | fuel + 1, some c, len, flag =>
    if isHexOccupied b c then
      chainRunsGo b target dir fuel (nextHex c dir) (len + 1) (flag || c == target)
    else if 0 < len then
      (len, flag) :: chainRunsGo b target dir fuel (nextHex c dir) 0 false
    else
      chainRunsGo b target dir fuel (nextHex c dir) 0 false

/-- All runs over the 15 chain starters, in walk order. -/
def chainRuns (b : Board) (target : Nat) : List (Nat × Bool) :=
  CHAIN_STARTERS.flatMap fun s => chainRunsGo b target s.2 12 (some s.1) 0 false

/-- The running `(maxLength, secondMaxLength)` update performed at each run
boundary in `checkChainLengthConstraint`. -/
def top2step (p : Nat × Nat) (len : Nat) : Nat × Nat :=
  if p.1 < len then (len, p.1) else if p.2 < len then (p.1, len) else p

/-- The running `longestAffected` update (longest run containing the hex). -/
def affectedStep (acc : Nat) (r : Nat × Bool) : Nat :=
  if r.2 && acc < r.1 then r.1 else acc

/-- The board with the occupancy bit set and a placeholder value 1 at `hexId`
(the temporary placement performed by `checkChainLengthConstraint`). -/
def placedBoard (b : Board) (hexId : Nat) : Board :=
  { b with
    hexOccupied := b.hexOccupied ||| (1 <<< hexId),
    hexValues := b.hexValues.set hexId 1 }

/-- `HexukiBitboard::checkChainLengthConstraint`: temporarily place a tile at
`hexId`, walk all 15 chain lines accumulating the largest and second-largest
run length and the longest run through `hexId` (the inline loop updates these
accumulators at each run boundary, in walk order), restore the saved state,
and require the longest affected run to be at most one longer than the second
largest.  Returned together with the board after the restore (the C++ method
mutates `this` and restores it before returning). -/
def checkChainLengthConstraint (b : Board) (hexId : Nat) : Bool × Board :=
  let savedValue := b.hexValues.getD hexId 0
  let savedOccupied := b.hexOccupied
  let b1 : Board := placedBoard b hexId
  let runs := chainRuns b1 hexId
  let ms := runs.foldl (fun p r => top2step p r.1) (0, 0)
  let longestAffected := runs.foldl affectedStep 0
  let b2 : Board := { b1 with
    hexValues := b1.hexValues.set hexId savedValue,
    hexOccupied := savedOccupied }
  (if ms.2 + 1 < longestAffected then false else true, b2)

/-- `HexukiBitboard::isMoveLegal`: empty, adjacent to an occupied hex, and
chain-legal. -/
def isMoveLegal (b : Board) (hexId : Int) : Bool :=
  if isHexOccupied b hexId then false
  else if !hasAdjacentOccupied b hexId then false
  else (checkChainLengthConstraint b hexId.toNat).1

/-- `HexukiBitboard::isValidMove`: structural validity, positional legality,
and tile availability for the side to move. -/
def isValidMove (b : Board) (m : Move) : Bool :=
  if !m.isValid then false
  else if !isMoveLegal b m.hexId then false
  else if !isTileAvailable b b.currentPlayer m.tileValue then false
  else true

/-- The manual deduplication loop of `getValidMoves` (append each tile value
not seen before, preserving first-occurrence order). -/
def uniqueTilesGo : List Int → List Int → List Int
  | acc, [] => acc
  | acc, t :: rest =>
    if t ∈ acc then uniqueTilesGo acc rest else uniqueTilesGo (acc ++ [t]) rest

/-- `HexukiBitboard::getValidMoves`: for every empty, legal hex pair it with
every distinct tile value of the mover's bag. -/
def getValidMoves (b : Board) : List Move :=
  let availableTiles :=
    if b.currentPlayer == PLAYER_1 then b.p1AvailableTiles else b.p2AvailableTiles
  let uniqueTileValues := uniqueTilesGo [] availableTiles
  (List.range NUM_HEXES).flatMap fun hexId =>
    if isHexOccupied b hexId then []
    else if isMoveLegal b hexId then
      uniqueTileValues.map fun tileValue => Move.mk hexId tileValue
    else []

/-- `HexukiBitboard::makeMove`: set the occupancy bit and value, remove the
first occurrence of the tile from the mover's bag, XOR the tile key and the
(pre-switch) side key into the hash, and flip the side to move.  The stored
value is the int tile value converted to `uint8_t`. -/
def makeMove (b : Board) (m : Move) : Board :=
  let tiles1 := if b.currentPlayer == PLAYER_1
    then b.p1AvailableTiles.erase m.tileValue else b.p1AvailableTiles
  let tiles2 := if b.currentPlayer == PLAYER_1
    then b.p2AvailableTiles else b.p2AvailableTiles.erase m.tileValue
  { b with
    hexOccupied := b.hexOccupied ||| (1 <<< m.hexId.toNat),
    hexValues := b.hexValues.set m.hexId.toNat (m.tileValue % 256).toNat,
    p1AvailableTiles := tiles1,
    p2AvailableTiles := tiles2,
    zobristHash := (b.zobristHash ^^^ tileKey m.hexId m.tileValue) ^^^ playerKey b.currentPlayer,
    currentPlayer := if b.currentPlayer == PLAYER_1 then PLAYER_2 else PLAYER_1 }

/-- `HexukiBitboard::unmakeMove`: flip the side back, XOR the same two keys
out of the hash, append the tile to the tail of that side's bag, clear the
occupancy bit (`&= ~(1u << hexId)` on the 32-bit mask) and zero the value. -/
def unmakeMove (b : Board) (m : Move) : Board :=
  let prevPlayer := if b.currentPlayer == PLAYER_1 then PLAYER_2 else PLAYER_1
  let tiles1 := if prevPlayer == PLAYER_1
    then b.p1AvailableTiles ++ [m.tileValue] else b.p1AvailableTiles
  let tiles2 := if prevPlayer == PLAYER_1
    then b.p2AvailableTiles else b.p2AvailableTiles ++ [m.tileValue]
  { b with
    currentPlayer := prevPlayer,
    zobristHash := (b.zobristHash ^^^ tileKey m.hexId m.tileValue) ^^^ playerKey prevPlayer,
    p1AvailableTiles := tiles1,
    p2AvailableTiles := tiles2,
    hexOccupied := b.hexOccupied &&& ((2 ^ 32 - 1) ^^^ (1 <<< m.hexId.toNat)),
    hexValues := b.hexValues.set m.hexId.toNat 0 }

/-- `HexukiBitboard::calculateChainScore`: product of the values on the
occupied hexes of one scoring chain. -/
def calculateChainScore (b : Board) (chain : List Nat) : Int :=
  chain.foldl (fun p (h : Nat) =>
    if isHexOccupied b h then p * (getTileValue b h : Int) else p) 1

/-- `HexukiBitboard::calculatePlayerScore`: sum of the chain scores of the
player's chain family. -/
def calculatePlayerScore (b : Board) (player : Int) : Int :=
  if player == PLAYER_1 then
    (P1_CHAINS.map (calculateChainScore b)).foldl (· + ·) 0
  else
    (P2_CHAINS.map (calculateChainScore b)).foldl (· + ·) 0

/-- `HexukiBitboard::getScore`. -/
def getScore (b : Board) (player : Int) : Int :=
  calculatePlayerScore b player

/-- The board produced by the constructor / `reset()`: center hex holds the
starting tile, both bags are 1..9, P1 to move, hash recomputed. -/
def initialBoard : Board :=
  let b : Board := {
    hexOccupied := 1 <<< CENTER_HEX,
    hexValues := (List.replicate NUM_HEXES 0).set CENTER_HEX STARTING_TILE,
    p1AvailableTiles := [1,2,3,4,5,6,7,8,9],
    p2AvailableTiles := [1,2,3,4,5,6,7,8,9],
    currentPlayer := PLAYER_1,
    symmetryStillPossible := true,
    tilesAreIdentical := true,
    zobristHash := 0 }
  { b with
    tilesAreIdentical := tilesMatch b.p1AvailableTiles b.p2AvailableTiles,
    zobristHash := fullHash b }

/-- `HexukiBitboard::setHexValue`: place a tile directly (puzzle setup) and
recompute the hash from scratch. -/
def setHexValue (b : Board) (hexId tileValue : Int) : Board :=
  if hexId < 0 || (NUM_HEXES : Int) ≤ hexId then b
  else
    let b1 : Board := { b with
      hexOccupied := b.hexOccupied ||| (1 <<< hexId.toNat),
      hexValues := b.hexValues.set hexId.toNat (tileValue % 256).toNat }
    { b1 with zobristHash := fullHash b1 }

/-- `HexukiBitboard::setAvailableTiles`: directly assign one player's bag. -/
def setAvailableTiles (b : Board) (player : Int) (tiles : List Int) : Board :=
  if player == PLAYER_1 then { b with p1AvailableTiles := tiles }
  else if player == PLAYER_2 then { b with p2AvailableTiles := tiles }
  else b

/-- `HexukiBitboard::clearBoard`: clear all tiles, keep player, recompute hash. -/
def clearBoard (b : Board) : Board :=
  let b1 : Board := { b with
    hexOccupied := 0,
    hexValues := List.replicate NUM_HEXES 0 }
  { b1 with zobristHash := fullHash b1 }

/-! ### Structural well-formedness of a board

The C++ class maintains these as type- and reachability-invariants: the
occupancy mask is a `uint32_t` value, the player field holds one of the two
player constants, the value array has exactly 19 entries, and a hex whose
occupancy bit is clear stores value 0. -/

/-- C++ representation invariants of `HexukiBitboard`. -/
def WF (b : Board) : Prop :=
  b.hexOccupied < 2 ^ 32 ∧
  (b.currentPlayer = PLAYER_1 ∨ b.currentPlayer = PLAYER_2) ∧
  b.hexValues.length = NUM_HEXES ∧
  ∀ i : Nat, i < NUM_HEXES → isHexOccupied b (i : Int) = false → b.hexValues.getD i 0 = 0

instance : DecidablePred WF := fun b => by unfold WF; infer_instance

/-! ### Helper lemmas -/

theorem set_getD_self (l : List Nat) (n : Nat) : l.set n (l.getD n 0) = l := by
  induction l generalizing n with
  | nil => simp
  | cons a t ih =>
    cases n with
    | zero => simp [List.getD]
    | succ k => simpa [List.getD] using ih k

theorem set_getElem_opt_self (l : List Nat) (n : Nat) : l.set n (l[n]?.getD 0) = l := by
  simpa [List.getD] using set_getD_self l n

theorem clear_set_bit {occ h : Nat} (h32 : occ < 2 ^ 32) (hlt : h < 32)
    (hb : occ.testBit h = false) :
    (occ ||| 1 <<< h) &&& (2 ^ 32 - 1 ^^^ 1 <<< h) = occ := by
  rw [Nat.one_shiftLeft]
  apply Nat.eq_of_testBit_eq
  intro i
  rw [Nat.testBit_land, Nat.testBit_lor, Nat.testBit_xor,
    Nat.testBit_two_pow_sub_one, Nat.testBit_two_pow]
  by_cases hih : h = i
  · subst hih
    simp [hb, hlt]
  · by_cases hi32 : i < 32
    · simp [hih, hi32]
    · have : occ.testBit i = false :=
        Nat.testBit_eq_false_of_lt
          (lt_of_lt_of_le h32 (Nat.pow_le_pow_right (by norm_num) (by omega)))
      simp [hih, hi32, this]

theorem xor_cancel_right (x y : Nat) : (x ^^^ y) ^^^ y = x := by
  rw [Nat.xor_assoc, Nat.xor_self, Nat.xor_zero]

theorem xor_swap_right (x s k : Nat) : (x ^^^ s) ^^^ k = (x ^^^ k) ^^^ s := by
  rw [Nat.xor_assoc, Nat.xor_comm s k, ← Nat.xor_assoc]

theorem xor_make_unmake (a k s : Nat) : (((a ^^^ k) ^^^ s) ^^^ k) ^^^ s = a := by
  rw [xor_swap_right (a ^^^ k) s k, xor_cancel_right, xor_cancel_right]

theorem erase_append_coe {v : Int} {l : List Int} (hv : v ∈ l) :
    ((l.erase v ++ [v] : List Int) : Multiset Int) = (l : Multiset Int) := by
  rw [Multiset.coe_eq_coe]
  exact (List.perm_append_singleton v _).trans (List.perm_cons_erase hv).symm

theorem mem_uniqueTilesGo {x : Int} (acc l : List Int) :
    x ∈ uniqueTilesGo acc l ↔ x ∈ acc ∨ x ∈ l := by
  induction l generalizing acc with
  | nil => simp [uniqueTilesGo]
  | cons t rest ih =>
    by_cases ht : t ∈ acc
    · rw [uniqueTilesGo, if_pos ht, ih]
      constructor
      · rintro (h | h)
        · exact Or.inl h
        · exact Or.inr (List.mem_cons_of_mem _ h)
      · rintro (h | h)
        · exact Or.inl h
        · rcases List.mem_cons.mp h with rfl | h
          · exact Or.inl ht
          · exact Or.inr h
    · rw [uniqueTilesGo, if_neg ht, ih]
      simp only [List.mem_append, List.mem_singleton, List.mem_cons]
      tauto

theorem nodup_uniqueTilesGo (acc l : List Int) (h : acc.Nodup) :
    (uniqueTilesGo acc l).Nodup := by
  induction l generalizing acc with
  | nil => exact h
  | cons t rest ih =>
    by_cases ht : t ∈ acc
    · rw [uniqueTilesGo, if_pos ht]; exact ih acc h
    · rw [uniqueTilesGo, if_neg ht]
      exact ih _ (by simp [List.nodup_append, h, ht])

/-- Membership of the generated move list, in terms of the hex loop. -/
theorem mem_getValidMoves {b : Board} {m : Move} :
    m ∈ getValidMoves b ↔
      ∃ h : Nat, h < NUM_HEXES ∧ m.hexId = (h : Int) ∧
        isHexOccupied b (h : Int) = false ∧ isMoveLegal b (h : Int) = true ∧
        m.tileValue ∈ getAvailableTiles b b.currentPlayer := by
  unfold getValidMoves
  simp only [List.mem_flatMap, List.mem_range]
  constructor
  · rintro ⟨h, hh, hmem⟩
    by_cases h1 : isHexOccupied b (h : Int)
    · simp [h1] at hmem
    · by_cases h2 : isMoveLegal b (h : Int)
      · simp only [h1, if_false, h2, if_true, Bool.false_eq_true, List.mem_map] at hmem
        obtain ⟨v, hv, rfl⟩ := hmem
        refine ⟨h, hh, rfl, by simp [h1], h2, ?_⟩
        have := (mem_uniqueTilesGo [] _).mp hv
        simpa [getAvailableTiles] using this
      · simp [h1, h2] at hmem
  · rintro ⟨h, hh, hid, hocc, hleg, htile⟩
    refine ⟨h, hh, ?_⟩
    rw [hocc]
    simp only [Bool.false_eq_true, if_false, hleg, if_true, List.mem_map]
    refine ⟨m.tileValue, ?_, ?_⟩
    · rw [mem_uniqueTilesGo]
      right
      simpa [getAvailableTiles] using htile
    · cases m
      simp_all

/-! ### C1: make / unmake restores the position -/

/-- C1.  For a well-formed position and a generated move, `makeMove` followed
by `unmakeMove` restores the occupancy mask, the per-hex values, the side to
move and the Zobrist hash bit-exactly, and both bags as multisets. -/
theorem makeMove_unmakeMove_id (b : Board) (m : Move)
    (hwf : WF b) (hm : m ∈ getValidMoves b) :
    (unmakeMove (makeMove b m) m).hexOccupied = b.hexOccupied ∧
    (unmakeMove (makeMove b m) m).hexValues = b.hexValues ∧
    (unmakeMove (makeMove b m) m).currentPlayer = b.currentPlayer ∧
    (unmakeMove (makeMove b m) m).zobristHash = b.zobristHash ∧
    ((unmakeMove (makeMove b m) m).p1AvailableTiles : Multiset Int)
      = (b.p1AvailableTiles : Multiset Int) ∧
    ((unmakeMove (makeMove b m) m).p2AvailableTiles : Multiset Int)
      = (b.p2AvailableTiles : Multiset Int) := by
  obtain ⟨h32, hp, hlen, hinv⟩ := hwf
  obtain ⟨h, hh, hid, hocc, _, htile⟩ := mem_getValidMoves.mp hm
  have htn : m.hexId.toNat = h := by rw [hid]; exact Int.toNat_natCast h
  have hbit : b.hexOccupied.testBit h = false := by
    have := hocc
    unfold isHexOccupied at this
    rw [if_neg (by omega)] at this
    simpa using this
  have hvalh : b.hexValues.getD h 0 = 0 := hinv h hh hocc
  have hocc' : (b.hexOccupied ||| 1 <<< h) &&& (2 ^ 32 - 1 ^^^ 1 <<< h) = b.hexOccupied :=
    clear_set_bit h32 (by unfold NUM_HEXES at hh; omega) hbit
  have hvals :
      ((b.hexValues.set h (m.tileValue % 256).toNat).set h 0) = b.hexValues := by
    rw [List.set_set]
    calc b.hexValues.set h 0
        = b.hexValues.set h (b.hexValues.getD h 0) := by rw [hvalh]
      _ = b.hexValues := set_getD_self _ _
  rcases hp with hp1 | hp1 <;>
  · simp only [makeMove, unmakeMove, hp1, PLAYER_1, PLAYER_2, htn] <;>
    refine ⟨by simpa using hocc', by simpa using hvals, by norm_num,
      by simpa using xor_make_unmake b.zobristHash (tileKey m.hexId m.tileValue) _, ?_, ?_⟩ <;>
    simp only [show ((1 : Int) == 1) = true from rfl, show ((2 : Int) == 1) = false from rfl,
      if_true, if_false] <;>
    first
      | rfl
      | exact erase_append_coe (by simpa [getAvailableTiles, hp1, PLAYER_1, PLAYER_2] using htile)

/-- C1 witness: at the initial position with the move placing tile 3 on hex 4,
the hypotheses hold and the restoration equalities follow. -/
theorem makeMove_unmakeMove_id_witness :
    (WF initialBoard ∧ Move.mk 4 3 ∈ getValidMoves initialBoard) ∧
    ((unmakeMove (makeMove initialBoard ⟨4, 3⟩) ⟨4, 3⟩).hexOccupied
        = initialBoard.hexOccupied ∧
      (unmakeMove (makeMove initialBoard ⟨4, 3⟩) ⟨4, 3⟩).hexValues
        = initialBoard.hexValues ∧
      (unmakeMove (makeMove initialBoard ⟨4, 3⟩) ⟨4, 3⟩).currentPlayer
        = initialBoard.currentPlayer ∧
      (unmakeMove (makeMove initialBoard ⟨4, 3⟩) ⟨4, 3⟩).zobristHash
        = initialBoard.zobristHash ∧
      ((unmakeMove (makeMove initialBoard ⟨4, 3⟩) ⟨4, 3⟩).p1AvailableTiles : Multiset Int)
        = (initialBoard.p1AvailableTiles : Multiset Int) ∧
      ((unmakeMove (makeMove initialBoard ⟨4, 3⟩) ⟨4, 3⟩).p2AvailableTiles : Multiset Int)
        = (initialBoard.p2AvailableTiles : Multiset Int)) :=
  ⟨⟨by decide, by decide⟩,
    makeMove_unmakeMove_id initialBoard ⟨4, 3⟩ (by decide) (by decide)⟩

/-! ### C7: the chain-length constraint computes the spec's rule

The specification states the rule as: let `L` be the length of the longest
chain containing the new hex and `S` the second-largest chain length across
the entire board (including the new hex's chains, duplicates counted); the
move is legal iff `L ≤ S + 1`.  The following definitions state `L` and `S`
in the spec's terms on the run decomposition, and the theorem shows that the
streaming accumulators of `checkChainLengthConstraint` compute exactly them,
and that the board is restored. -/

/-- Maximum of a list of lengths (0 when empty). -/
def listMax (l : List Nat) : Nat := l.foldr max 0

/-- Second-largest element of a list, duplicates counted (0 when the list has
fewer than two elements): the maximum after removing one occurrence of the
maximum. -/
def secondLargest (l : List Nat) : Nat := listMax (l.erase (listMax l))

/-- Spec's `L`: length of the longest chain containing the new hex after
hypothetical placement. -/
def longestAffectedChain (b : Board) (hexId : Nat) : Nat :=
  listMax (((chainRuns (placedBoard b hexId) hexId).filter (fun r => r.2)).map (fun r => r.1))

/-- Spec's `S`: second-largest chain length across the entire board after
hypothetical placement, the new hex's chains included. -/
def secondLargestChainLength (b : Board) (hexId : Nat) : Nat :=
  secondLargest ((chainRuns (placedBoard b hexId) hexId).map (fun r => r.1))

theorem le_listMax_of_mem {x : Nat} {l : List Nat} (h : x ∈ l) : x ≤ listMax l := by
  induction l with
  | nil => cases h
  | cons a t ih =>
    rcases List.mem_cons.mp h with rfl | h
    · exact Nat.le_max_left _ _
    · exact le_trans (ih h) (Nat.le_max_right _ _)

theorem listMax_le {l : List Nat} {n : Nat} (h : ∀ x ∈ l, x ≤ n) : listMax l ≤ n := by
  induction l with
  | nil => exact Nat.zero_le n
  | cons a t ih =>
    exact Nat.max_le.mpr ⟨h a (List.mem_cons_self a t), ih fun x hx => h x (List.mem_cons_of_mem a hx)⟩

theorem listMax_perm {l l' : List Nat} (h : l.Perm l') : listMax l = listMax l' :=
  Nat.le_antisymm
    (listMax_le fun x hx => le_listMax_of_mem (h.mem_iff.mp hx))
    (listMax_le fun x hx => le_listMax_of_mem (h.mem_iff.mpr hx))

theorem secondLargest_le_listMax (l : List Nat) : secondLargest l ≤ listMax l :=
  listMax_le fun x hx => le_listMax_of_mem (List.mem_of_mem_erase hx)

theorem secondLargest_perm {l l' : List Nat} (h : l.Perm l') :
    secondLargest l = secondLargest l' := by
  unfold secondLargest
  rw [listMax_perm h]
  exact listMax_perm (h.erase (listMax l'))

/-- Consing an element bounded by the current second-largest changes neither
the maximum nor the second-largest. -/
theorem secondLargest_cons_le {c : Nat} {l : List Nat} (hc : c ≤ secondLargest l) :
    secondLargest (c :: l) = secondLargest l := by
  have hcM : c ≤ listMax l := le_trans hc (secondLargest_le_listMax l)
  have hM : listMax (c :: l) = listMax l := by
    show max c (listMax l) = listMax l
    exact Nat.max_eq_right hcM
  unfold secondLargest
  rw [hM]
  by_cases hcl : c = listMax l
  · rw [← hcl, List.erase_cons_head]
    rw [hcl]
    have h1 : secondLargest l = listMax l := by
      refine Nat.le_antisymm (secondLargest_le_listMax l) ?_
      calc listMax l = c := hcl.symm
        _ ≤ secondLargest l := hc
    calc listMax l = secondLargest l := h1.symm
      _ = listMax (l.erase (listMax l)) := rfl
  · rw [List.erase_cons_tail (by simpa using hcl)]
    show max c (listMax (l.erase (listMax l))) = listMax (l.erase (listMax l))
    exact Nat.max_eq_right hc

theorem listMax_cons_le {c : Nat} {l : List Nat} (hc : c ≤ listMax l) :
    listMax (c :: l) = listMax l := by
  show max c (listMax l) = listMax l
  exact Nat.max_eq_right hc

/-- The smaller of the two accumulator components is below the second-largest
of the accumulator-seeded list. -/
theorem le_secondLargest_pair {a b : Nat} (hba : b ≤ a) (t : List Nat) :
    b ≤ secondLargest (a :: b :: t) := by
  unfold secondLargest
  by_cases ha : a = listMax (a :: b :: t)
  · rw [← ha, List.erase_cons_head]
    exact le_listMax_of_mem (List.mem_cons_self b t)
  · rw [List.erase_cons_tail (by simpa using ha)]
    calc b ≤ a := hba
      _ ≤ listMax (a :: (b :: t).erase (listMax (a :: b :: t))) := Nat.le_max_left _ _

/-- The streaming `(max, secondMax)` update computes the maximum and the
second-largest of the accumulator-seeded length list. -/
theorem top2_foldl (l : List Nat) : ∀ m s : Nat, s ≤ m →
    l.foldl top2step (m, s) = (listMax (m :: s :: l), secondLargest (m :: s :: l)) := by
  induction l with
  | nil =>
    intro m s hsm
    have h1 : listMax [m, s] = m := by
      show max m (max s 0) = m
      simp [Nat.max_eq_left hsm]
    have h2 : secondLargest [m, s] = s := by
      unfold secondLargest
      rw [h1, List.erase_cons_head]
      show max s 0 = s
      simp
    simp [h1, h2]
  | cons x t ih =>
    intro m s hsm
    rw [List.foldl_cons]
    have perm1 : (m :: s :: x :: t).Perm (s :: x :: m :: t) :=
      (List.Perm.swap s m _).trans (List.Perm.cons s (List.Perm.swap x m t))
    have perm2 : (m :: s :: x :: t).Perm (s :: m :: x :: t) := List.Perm.swap s m _
    have perm3 : (m :: s :: x :: t).Perm (x :: m :: s :: t) :=
      (List.Perm.cons m (List.Perm.swap x s t)).trans (List.Perm.swap x m _)
    by_cases h1 : m < x
    · rw [show top2step (m, s) x = (x, m) by simp [top2step, h1]]
      rw [ih x m (le_of_lt h1)]
      have hdrop : s ≤ secondLargest (x :: m :: t) :=
        le_trans hsm (le_secondLargest_pair (le_of_lt h1) t)
      rw [listMax_perm perm1, secondLargest_perm perm1,
        listMax_cons_le (le_trans hdrop (secondLargest_le_listMax _)),
        secondLargest_cons_le hdrop]
    · by_cases h2 : s < x
      · rw [show top2step (m, s) x = (m, x) by simp [top2step, h1, h2]]
        rw [ih m x (by omega)]
        have hdrop : s ≤ secondLargest (m :: x :: t) :=
          le_trans (le_of_lt h2) (le_secondLargest_pair (by omega) t)
        rw [listMax_perm perm2, secondLargest_perm perm2,
          listMax_cons_le (le_trans hdrop (secondLargest_le_listMax _)),
          secondLargest_cons_le hdrop]
      · rw [show top2step (m, s) x = (m, s) by simp [top2step, h1, h2]]
        rw [ih m s hsm]
        have hdrop : x ≤ secondLargest (m :: s :: t) :=
          le_trans (by omega) (le_secondLargest_pair hsm t)
        rw [listMax_perm perm3, secondLargest_perm perm3,
          listMax_cons_le (le_trans hdrop (secondLargest_le_listMax _)),
          secondLargest_cons_le hdrop]

theorem secondLargest_cons_zero (l : List Nat) : secondLargest (0 :: l) = secondLargest l := by
  cases l with
  | nil =>
    unfold secondLargest listMax
    simp
  | cons a t => exact secondLargest_cons_le (Nat.zero_le _)

theorem top2_foldl_zero (l : List Nat) :
    l.foldl top2step (0, 0) = (listMax l, secondLargest l) := by
  rw [top2_foldl l 0 0 (le_refl 0)]
  have h1 : listMax (0 :: 0 :: l) = listMax l := by
    show max 0 (max 0 (listMax l)) = listMax l
    simp
  rw [h1, secondLargest_cons_zero, secondLargest_cons_zero]

/-- The streaming `longestAffected` update computes the maximum length of a
run through the hex. -/
theorem affected_foldl (l : List (Nat × Bool)) : ∀ a : Nat,
    l.foldl affectedStep a = max a (listMax ((l.filter (fun r => r.2)).map (fun r => r.1))) := by
  induction l with
  | nil => intro a; simp [listMax]
  | cons r t ih =>
    intro a
    rw [List.foldl_cons]
    by_cases hflag : r.2
    · by_cases hlt : a < r.1
      · rw [show affectedStep a r = r.1 by simp [affectedStep, hflag, hlt]]
        rw [ih r.1, List.filter_cons_of_pos (by simpa using hflag), List.map_cons]
        show max r.1 _ = max a (max r.1 _)
        exact (Nat.max_eq_right (le_trans (le_of_lt hlt) (Nat.le_max_left _ _))).symm
      · rw [show affectedStep a r = a by simp [affectedStep, hflag, hlt]]
        rw [ih a, List.filter_cons_of_pos (by simpa using hflag), List.map_cons]
        have hra : r.1 ≤ a := by omega
        show max a _ = max a (max r.1 _)
        rw [← Nat.max_assoc, Nat.max_eq_left hra]
        rfl
    · rw [show affectedStep a r = a by simp [affectedStep, hflag]]
      rw [ih a, List.filter_cons_of_neg (by simpa using hflag)]

/-- C7.  For every board and empty hex, `checkChainLengthConstraint` returns
true iff the longest chain through the hex after hypothetical placement is at
most one longer than the second-largest chain length across the whole board
(the new hex's chains included), and the board is returned unchanged in every
field. -/
theorem checkChainLengthConstraint_spec (b : Board) (hexId : Nat)
    (h19 : hexId < NUM_HEXES) (hocc : isHexOccupied b (hexId : Int) = false) :
    (checkChainLengthConstraint b hexId).1 =
      decide (longestAffectedChain b hexId ≤ secondLargestChainLength b hexId + 1) ∧
    (checkChainLengthConstraint b hexId).2 = b := by
  constructor
  · show (if ((chainRuns (placedBoard b hexId) hexId).foldl
          (fun p r => top2step p r.1) (0, 0)).2 + 1 <
        (chainRuns (placedBoard b hexId) hexId).foldl affectedStep 0
      then false else true) = _
    rw [show ((chainRuns (placedBoard b hexId) hexId).foldl
          (fun p r => top2step p r.1) (0, 0))
        = (((chainRuns (placedBoard b hexId) hexId).map (fun r => r.1)).foldl
            top2step (0, 0)) from (List.foldl_map _ _ _ _).symm]
    rw [top2_foldl_zero, affected_foldl]
    show (if secondLargestChainLength b hexId + 1 <
        max 0 (longestAffectedChain b hexId) then false else true) = _
    rw [Nat.zero_max]
    by_cases hle : longestAffectedChain b hexId ≤ secondLargestChainLength b hexId + 1
    · rw [if_neg (by omega), decide_eq_true hle]
    · rw [if_pos (by omega)]
      simp [hle]
  · obtain ⟨occ, vals, p1, p2, cp, sy, ti, zh⟩ := b
    show ({ placedBoard ⟨occ, vals, p1, p2, cp, sy, ti, zh⟩ hexId with
        hexValues := (vals.set hexId 1).set hexId (vals.getD hexId 0),
        hexOccupied := occ } : Board) = _
    simp [placedBoard, List.set_set, set_getD_self, set_getElem_opt_self]

/-- C7 witness: at the initial position and empty hex 4 the hypotheses hold
and the conclusions follow. -/
theorem checkChainLengthConstraint_spec_witness :
    (4 < NUM_HEXES ∧ isHexOccupied initialBoard (4 : Int) = false) ∧
    ((checkChainLengthConstraint initialBoard 4).1 =
        decide (longestAffectedChain initialBoard 4 ≤
          secondLargestChainLength initialBoard 4 + 1) ∧
      (checkChainLengthConstraint initialBoard 4).2 = initialBoard) :=
  ⟨⟨by decide, by decide⟩,
    checkChainLengthConstraint_spec initialBoard 4 (by decide) (by decide)⟩

/-! ### C8: the generated move list is exactly one move per legal pair -/

theorem isMoveLegal_iff {b : Board} {h : Int} :
    isMoveLegal b h = true ↔
      isHexOccupied b h = false ∧ hasAdjacentOccupied b h = true ∧
        (checkChainLengthConstraint b h.toNat).1 = true := by
  unfold isMoveLegal
  by_cases h1 : isHexOccupied b h <;> by_cases h2 : hasAdjacentOccupied b h <;>
    simp [h1, h2]

/-- Every move generated for hex `h` carries hex id `h`. -/
theorem hexId_of_mem_block {b : Board} {m : Move} {u : List Int} {h : Nat}
    (hm : m ∈ if isHexOccupied b (h : Int) then []
      else if isMoveLegal b (h : Int) then u.map (fun v => Move.mk h v) else []) :
    m.hexId = (h : Int) := by
  split at hm
  · cases hm
  · split at hm
    · obtain ⟨v, _, rfl⟩ := List.mem_map.mp hm
      rfl
    · cases hm

/-- C8.  A move is in `getValidMoves` iff its hex is an in-range empty hex
with an occupied neighbor satisfying the chain-length constraint and its tile
value occurs in the mover's bag; and the returned list has no duplicates, so
each such pair appears exactly once (duplicate bag values contribute a single
move per distinct value). -/
theorem getValidMoves_exactly (b : Board) (m : Move) :
    (m ∈ getValidMoves b ↔
      (0 ≤ m.hexId ∧ m.hexId < (NUM_HEXES : Int) ∧
        isHexOccupied b m.hexId = false ∧
        hasAdjacentOccupied b m.hexId = true ∧
        (checkChainLengthConstraint b m.hexId.toNat).1 = true ∧
        m.tileValue ∈ getAvailableTiles b b.currentPlayer)) ∧
    (getValidMoves b).Nodup := by
  constructor
  · rw [mem_getValidMoves]
    constructor
    · rintro ⟨h, hh, hid, hocc, hleg, htile⟩
      obtain ⟨hocc', hadj, hchain⟩ := isMoveLegal_iff.mp hleg
      rw [hid]
      refine ⟨by omega, ?_, hocc', hadj, ?_, htile⟩
      · unfold NUM_HEXES
        unfold NUM_HEXES at hh
        omega
      · rwa [Int.toNat_natCast]
    · rintro ⟨h0, h19, hocc, hadj, hchain, htile⟩
      refine ⟨m.hexId.toNat, ?_, (Int.toNat_of_nonneg h0).symm, ?_, ?_, htile⟩
      · unfold NUM_HEXES
        unfold NUM_HEXES at h19
        omega
      · rwa [Int.toNat_of_nonneg h0]
      · rw [Int.toNat_of_nonneg h0]
        exact isMoveLegal_iff.mpr ⟨hocc, hadj, hchain⟩
  · unfold getValidMoves
    refine List.nodup_flatMap.mpr ⟨?_, ?_⟩
    · intro h _
      split
      · exact List.nodup_nil
      · split
        · refine List.Nodup.map ?_ (nodup_uniqueTilesGo [] _ List.nodup_nil)
          intro a c hac
          simpa using congrArg Move.tileValue hac
        · exact List.nodup_nil
    · refine (List.pairwise_lt_range NUM_HEXES).imp ?_
      intro a c hac
      intro m hm1 hm2
      have e1 := hexId_of_mem_block hm1
      have e2 := hexId_of_mem_block hm2
      rw [e1] at e2
      have : a = c := by exact_mod_cast e2
      omega

/-! ### C9: legality closure of the generated moves -/

/-- A position whose bag holds the out-of-range tile value 10. -/
def boardC9 : Board := setAvailableTiles initialBoard PLAYER_1 [10]

/-- C9 counterexample: with a bag containing the value 10 (as `loadPosition`
or `setAvailableTiles` permit), `getValidMoves` emits the move (4, 10) but
`isValidMove` rejects it, so the claimed closure fails for arbitrary bags. -/
theorem getValidMoves_not_closed_under_isValidMove :
    Move.mk 4 10 ∈ getValidMoves boardC9 ∧ isValidMove boardC9 ⟨4, 10⟩ = false := by
  constructor
  · decide
  · decide

/-- C9 (amended).  If every tile value in the mover's bag lies in the legal
range [1, 9], then every move produced by `getValidMoves` satisfies
`isValidMove`. -/
theorem getValidMoves_closed_under_isValidMove (b : Board) (m : Move)
    (hbag : ∀ v ∈ getAvailableTiles b b.currentPlayer, 1 ≤ v ∧ v ≤ MAX_TILE_VALUE)
    (hm : m ∈ getValidMoves b) : isValidMove b m = true := by
  obtain ⟨h, hh, hid, hocc, hleg, htile⟩ := mem_getValidMoves.mp hm
  obtain ⟨hv1, hv9⟩ := hbag _ htile
  unfold MAX_TILE_VALUE at hv9
  have hval : m.isValid = true := by
    unfold Move.isValid MAX_TILE_VALUE
    rw [hid]
    unfold NUM_HEXES at hh
    simp only [Bool.and_eq_true, decide_eq_true_eq]
    refine ⟨⟨⟨by omega, by omega⟩, hv1⟩, hv9⟩
  have htav : isTileAvailable b b.currentPlayer m.tileValue = true := by
    unfold isTileAvailable MAX_TILE_VALUE
    rw [if_neg (by simp only [Bool.or_eq_true, decide_eq_true_eq]; omega)]
    unfold getAvailableTiles at htile
    exact List.elem_iff.mpr htile
  unfold isValidMove
  rw [hid]
  simp [hval, hleg, htav]

/-- C9 witness for the amended theorem: the initial position's bags are 1..9
and the generated move (5, 2) passes `isValidMove`. -/
theorem getValidMoves_closed_under_isValidMove_witness :
    ((∀ v ∈ getAvailableTiles initialBoard initialBoard.currentPlayer,
        1 ≤ v ∧ v ≤ MAX_TILE_VALUE) ∧
      Move.mk 5 2 ∈ getValidMoves initialBoard) ∧
    isValidMove initialBoard ⟨5, 2⟩ = true :=
  ⟨⟨by decide, by decide⟩,
    getValidMoves_closed_under_isValidMove initialBoard ⟨5, 2⟩ (by decide) (by decide)⟩

/-! ### C6: the position codec (`loadPosition`)

`loadPosition` splits the input on pipes (per `std::getline`), dispatches each
section, and recomputes the derived flags and the hash.  `std::stoi` throws on
a token with no leading digits; an exception escaping `loadPosition` is
modelled as `none`. -/

/-- Modelled from the spec: the five self-mirroring center-column hexes
(`CENTER_COLUMN_HEXES`). -/
def CENTER_COLUMN_HEXES : List Nat := [7, 8, 9, 10, 11]

/-- Modelled from the spec: the vertical-mirror pair table
(`VERTICAL_MIRROR_PAIRS`), mapping each hex to its left-right mirror image. -/
def VERTICAL_MIRROR_PAIRS : List Nat :=
  [16, 17, 18, 12, 13, 14, 15, 7, 8, 9, 10, 11, 3, 4, 5, 6, 0, 1, 2]

/-- `std::stoi` on a character sequence: skip leading whitespace, accept an
optional sign, then require at least one digit (otherwise the C++ call throws,
modelled as `none`); parse the maximal digit prefix and ignore the rest. -/
def stoi (s : List Char) : Option Int :=
  let s1 := s.dropWhile fun c => c == ' ' || c == '\t' || c == '\n' || c == '\r'
  let signed : Bool × List Char :=
    match s1 with
    | '-' :: r => (true, r)
    | '+' :: r => (false, r)
    | r => (false, r)
  match signed.2 with
  | [] => none
  | c :: _ =>
    if c.isDigit then
      let n : Nat := (signed.2.takeWhile Char.isDigit).foldl
        (fun a d => a * 10 + (d.toNat - 48)) 0
      some (if signed.1 then -(n : Int) else (n : Int))
    else none

/-- Splitting on a delimiter with `std::getline` semantics: the empty input
yields no token, and a trailing delimiter does not produce a final empty
token. -/
def splitDelim (d : Char) : List Char → List (List Char)
  | [] => []
  | c :: cs =>
    if c == d then [] :: splitDelim d cs
    else
      match splitDelim d cs with
      | [] => [[c]]
      | t :: ts => (c :: t) :: ts

/-- One `h<ID>:<VAL>` pair of the hex section: pairs shorter than 4 characters
or without a colon are skipped; `std::stoi` is applied to the id part (from
position 1 up to the colon) and to the value part (after the colon), and the
tile is placed with `setHexValue`.  When the colon is at position 0 the C++
`size_t` count `colonPos - 1` wraps around, so the id part extends to the end
of the pair. -/
def parseHexPair (b : Board) (p : List Char) : Option Board :=
  if p.length < 4 then some b
  else
    match p.findIdx? (fun c => c == ':') with
    | none => some b
    | some colonPos =>
      let idPart := (p.drop 1).take (if colonPos == 0 then p.length else colonPos - 1)
      let valPart := p.drop (colonPos + 1)
      match stoi idPart with
      | none => none
      | some hexId =>
        match stoi valPart with
        | none => none
        | some tileVal => some (setHexValue b hexId tileVal)

/-- The comma-separated tile list of a `p1:` / `p2:` section (each token goes
through `std::stoi`). -/
def parseTilesGo : List (List Char) → Option (List Int)
  | [] => some []
  | t :: rest =>
    match stoi t with
    | none => none
    | some v =>
      match parseTilesGo rest with
      | none => none
      | some l => some (v :: l)

/-- Dispatch of one pipe-delimited section of `loadPosition`: empty sections
are skipped; `h` sections place tiles, `p1:` / `p2:` sections replace a bag,
`turn:` sets the side to move, anything else is ignored. -/
def applySection (b : Board) (sec : List Char) : Option Board :=
  if sec.isEmpty then some b
  else if sec.headD ' ' == 'h' then
    (splitDelim ',' sec).foldlM parseHexPair b
  else if sec.take 3 == ['p', '1', ':'] then
    match parseTilesGo (splitDelim ',' (sec.drop 3)) with
    | none => none
    | some tiles => some (setAvailableTiles b PLAYER_1 tiles)
  else if sec.take 3 == ['p', '2', ':'] then
    match parseTilesGo (splitDelim ',' (sec.drop 3)) with
    | none => none
    | some tiles => some (setAvailableTiles b PLAYER_2 tiles)
  else if sec.take 5 == ['t', 'u', 'r', 'n', ':'] then
    match stoi (sec.drop 5) with
    | none => none
    | some n => some { b with currentPlayer := n }
  else some b

/-- The symmetry recomputation at the end of `loadPosition`: symmetry remains
possible unless some non-center hex and its mirror are both occupied with
different values. -/
def computeSymmetryPossible (b : Board) : Bool :=
  (List.range NUM_HEXES).all fun hexId =>
    if hexId ∈ CENTER_COLUMN_HEXES then true
    else
      let mirrorHexId := VERTICAL_MIRROR_PAIRS.getD hexId hexId
      let val1 := b.hexValues.getD hexId 0
      let val2 := b.hexValues.getD mirrorHexId 0
      !(val1 != 0 && val2 != 0 && val1 != val2)

/-- `HexukiBitboard::loadPosition`: clear the board, reset the bags and the
side to move, process each pipe-delimited section, then recompute the
symmetry flag, the identical-bags flag and the hash.  (The C++ local flags
`p1Specified` / `p2Specified` are set but never read.) -/
def loadPosition (b : Board) (position : List Char) : Option Board :=
  let bc := clearBoard b
  let b0 : Board := { bc with
    p1AvailableTiles := [1, 2, 3, 4, 5, 6, 7, 8, 9],
    p2AvailableTiles := [1, 2, 3, 4, 5, 6, 7, 8, 9],
    currentPlayer := PLAYER_1 }
  match (splitDelim '|' position).foldlM applySection b0 with
  | none => none
  | some b1 =>
    let b2 : Board := { b1 with
      symmetryStillPossible := computeSymmetryPossible b1,
      tilesAreIdentical := tilesMatch b1.p1AvailableTiles b1.p2AvailableTiles }
    some { b2 with zobristHash := fullHash b2 }

/-- C6 counterexample: the input `h3:x` has a hex pair of full length with a
colon, but the non-numeric value token makes `std::stoi` throw, so
`loadPosition` does not terminate normally (the pair is not skipped). -/
theorem loadPosition_throws_on_nonnumeric :
    loadPosition initialBoard ['h', '3', ':', 'x'] = none := by decide

/-- C6 (amended).  The parser's tolerance is partial: empty sections are
skipped (a leading pipe leaves the parse unchanged), and hex pairs shorter
than four characters or lacking a colon are skipped leaving the board intact;
but a malformed numeric token is not skipped (see the counterexample). -/
theorem loadPosition_tolerance :
    (∀ (b : Board) (s : List Char), loadPosition b ('|' :: s) = loadPosition b s) ∧
    (∀ (b : Board) (p : List Char), p.length < 4 → parseHexPair b p = some b) ∧
    (∀ (b : Board) (p : List Char), p.findIdx? (fun c => c == ':') = none →
      parseHexPair b p = some b) := by
  refine ⟨?_, ?_, ?_⟩
  · intro b s
    simp only [loadPosition]
    rw [show splitDelim '|' ('|' :: s) = [] :: splitDelim '|' s by
      rw [splitDelim]; simp]
    rw [List.foldlM_cons]
    rfl
  · intro b p hp
    unfold parseHexPair
    rw [if_pos hp]
  · intro b p hp
    unfold parseHexPair
    split
    · rfl
    · rw [hp]

/-- C6 witness for the amended theorem: a leading empty section is skipped on
a concrete input, and concrete short and colon-free pairs are skipped. -/
theorem loadPosition_tolerance_witness :
    (loadPosition initialBoard ('|' :: ['t', 'u', 'r', 'n', ':', '2'])
        = loadPosition initialBoard ['t', 'u', 'r', 'n', ':', '2']) ∧
    (['h', '3'].length < 4 ∧ parseHexPair initialBoard ['h', '3'] = some initialBoard) ∧
    (['h', '3', '4', '5'].findIdx? (fun c => c == ':') = none ∧
      parseHexPair initialBoard ['h', '3', '4', '5'] = some initialBoard) :=
  ⟨loadPosition_tolerance.1 initialBoard ['t', 'u', 'r', 'n', ':', '2'],
    ⟨by decide, loadPosition_tolerance.2.1 initialBoard ['h', '3'] (by decide)⟩,
    ⟨by decide, loadPosition_tolerance.2.2 initialBoard ['h', '3', '4', '5'] (by decide)⟩⟩

/-! ### Search heuristics (`include/ai/minimax.h`) -/

namespace minimax

/-- `KillerMoves::MAX_DEPTH`. -/
def KILLER_MAX_DEPTH : Int := 50

/-- `KillerMoves`: two killer slots per ply, the 50-entry arrays modelled as
functions on the index. -/
structure KillerMoves where
  killer1 : Int → Move
  killer2 : Int → Move

/-- The default-constructed `KillerMoves` (all slots hold the null move). -/
def KillerMoves.init : KillerMoves :=
  ⟨fun _ => Move.null, fun _ => Move.null⟩

/-- `KillerMoves::update`: guarded by `0 ≤ ply < MAX_DEPTH`; if the move is
not already killer 1 at this ply, shift killer 1 to killer 2 and store it. -/
def KillerMoves.update (k : KillerMoves) (ply : Int) (m : Move) : KillerMoves :=
  if ply < 0 || KILLER_MAX_DEPTH ≤ ply then k
  else if m == k.killer1 ply then k
  else
    { killer1 := fun i => if i == ply then m else k.killer1 i,
      killer2 := fun i => if i == ply then k.killer1 ply else k.killer2 i }

/-- `KillerMoves::isKiller`: guarded membership test against the two slots. -/
def KillerMoves.isKiller (k : KillerMoves) (ply : Int) (m : Move) : Bool :=
  if ply < 0 || KILLER_MAX_DEPTH ≤ ply then false
  else m == k.killer1 ply || m == k.killer2 ply

/-- `HistoryTable`: the 19 x 10 score array modelled as a function on the two
indices. -/
structure HistoryTable where
  scores : Int → Int → Int

/-- The default-constructed `HistoryTable` (all scores zero). -/
def HistoryTable.init : HistoryTable := ⟨fun _ _ => 0⟩

/-- `HistoryTable::update`: add `depth * depth` at `(hexId, tileValue)` when
both indices are in bounds, otherwise leave the table unchanged. -/
def HistoryTable.update (h : HistoryTable) (m : Move) (depth : Int) : HistoryTable :=
  if 0 ≤ m.hexId && m.hexId < 19 && 0 ≤ m.tileValue && m.tileValue < 10 then
    { scores := fun i j =>
        if i == m.hexId && j == m.tileValue then h.scores i j + depth * depth
        else h.scores i j }
  else h

/-- `HistoryTable::getScore`: the stored score when both indices are in
bounds, otherwise 0. -/
def HistoryTable.getScore (h : HistoryTable) (m : Move) : Int :=
  if 0 ≤ m.hexId && m.hexId < 19 && 0 ≤ m.tileValue && m.tileValue < 10 then
    h.scores m.hexId m.tileValue
  else 0

/-- C10.  The heuristic tables are bounds-guarded at their public interface:
out-of-range plies make `KillerMoves::update` a no-op and
`KillerMoves::isKiller` false, and out-of-range move coordinates make
`HistoryTable::update` a no-op and `HistoryTable::getScore` zero. -/
theorem heuristic_tables_guarded :
    (∀ (k : KillerMoves) (ply : Int) (m : Move), (ply < 0 ∨ KILLER_MAX_DEPTH ≤ ply) →
      k.update ply m = k ∧ k.isKiller ply m = false) ∧
    (∀ (h : HistoryTable) (m : Move) (d : Int),
      (m.hexId < 0 ∨ 19 ≤ m.hexId ∨ m.tileValue < 0 ∨ 10 ≤ m.tileValue) →
      h.update m d = h ∧ h.getScore m = 0) := by
  constructor
  · intro k ply m hp
    have hc : (ply < 0 || KILLER_MAX_DEPTH ≤ ply) = true := by
      rcases hp with hp | hp <;> simp [hp]
    constructor
    · unfold KillerMoves.update
      rw [if_pos hc]
    · unfold KillerMoves.isKiller
      rw [if_pos hc]
  · intro h m d hb
    have hc : (0 ≤ m.hexId && m.hexId < 19 && 0 ≤ m.tileValue && m.tileValue < 10) = false := by
      simp only [Bool.and_eq_false_imp, Bool.and_eq_true, decide_eq_true_eq,
        decide_eq_false_iff_not, not_lt, and_imp]
      omega
    constructor
    · unfold HistoryTable.update
      rw [if_neg (by simp [hc])]
    · unfold HistoryTable.getScore
      rw [if_neg (by simp [hc])]

/-- C10 witness: ply 50 and move coordinates (19, 10) are out of range and the
no-op conclusions follow at the default tables. -/
theorem heuristic_tables_guarded_witness :
    (((50 : Int) < 0 ∨ KILLER_MAX_DEPTH ≤ (50 : Int)) ∧
      ((19 : Int) < 0 ∨ (19 : Int) ≤ (Move.mk 19 10).hexId ∨
        (Move.mk 19 10).tileValue < 0 ∨ (10 : Int) ≤ (Move.mk 19 10).tileValue)) ∧
    (KillerMoves.init.update 50 Move.null = KillerMoves.init ∧
      KillerMoves.init.isKiller 50 Move.null = false) ∧
    (HistoryTable.init.update ⟨19, 10⟩ 3 = HistoryTable.init ∧
      HistoryTable.init.getScore ⟨19, 10⟩ = 0) :=
  ⟨⟨Or.inr (by decide), Or.inr (Or.inl (by decide))⟩,
    heuristic_tables_guarded.1 KillerMoves.init 50 Move.null (Or.inr (by decide)),
    heuristic_tables_guarded.2 HistoryTable.init ⟨19, 10⟩ 3 (Or.inr (Or.inl (by decide)))⟩

/-! ### Transposition table and search state (`ai/minimax.cpp`)

The wall clock is modelled as an oracle `clk : Nat → Int` giving the elapsed
milliseconds at the i-th `steady_clock` sample taken after the search starts;
the sample counter is threaded through the search state.  Recursion fuel
bounds the alpha-beta recursion depth (the C++ recursion terminates because
each `makeMove` fills a hex; every use below passes ample fuel). -/

/-- `INF` from minimax.cpp. -/
def INF : Int := 1000000

/-- `MATE_SCORE` from minimax.cpp. -/
def MATE_SCORE : Int := 900000

/-- `TIMEOUT_CHECK_INTERVAL` from minimax.cpp. -/
def TIMEOUT_CHECK_INTERVAL : Nat := 1000

/-- `TTEntry::Flag`. -/
inductive TTFlag where
  | EXACT
  | LOWER_BOUND
  | UPPER_BOUND
deriving DecidableEq, Repr

/-- `TTEntry`. -/
structure TTEntry where
  score : Int
  depth : Int
  flag : TTFlag
  bestMove : Move
deriving DecidableEq, Repr

/-- The `std::unordered_map` of the transposition table, as an association
list (the MB sizing only reserves capacity and never affects behavior). -/
abbrev TTMap := List (Nat × TTEntry)

/-- Lookup in the transposition table map. -/
def ttFind (t : TTMap) (hash : Nat) : Option TTEntry :=
  match (t : List (Nat × TTEntry)).find? (fun e => e.1 == hash) with
  | some e => some e.2
  | none => none

/-- `TranspositionTable::store`: replace an existing entry only when the new
entry's depth is at least the stored one's; always insert a fresh hash. -/
def ttStore (t : TTMap) (hash : Nat) (e : TTEntry) : TTMap :=
  match ttFind t hash with
  | some old =>
    if old.depth ≤ e.depth then
      (t : List (Nat × TTEntry)).map (fun p => if p.1 == hash then (hash, e) else p)
    else t
  | none => (t : List (Nat × TTEntry)) ++ [(hash, e)]

/-- The mutable state owned by one `findBestMove` invocation: the TT with its
hit/miss counters, the per-depth node counter, the clock-sample counter, and
the killer/history tables. -/
structure SearchState where
  tt : TTMap
  hits : Nat
  misses : Nat
  nodes : Nat
  samples : Nat
  killers : KillerMoves
  history : HistoryTable

/-- The fresh state created at the top of `findBestMove`. -/
def SearchState.init : SearchState :=
  { tt := ([] : List (Nat × TTEntry)), hits := 0, misses := 0, nodes := 0,
    samples := 0, killers := KillerMoves.init, history := HistoryTable.init }

/-- `TranspositionTable::probe`: returns the entry if present and counts the
hit or the miss. -/
def ttProbe (st : SearchState) (hash : Nat) : Option TTEntry × SearchState :=
  match ttFind st.tt hash with
  | some e => (some e, { st with hits := st.hits + 1 })
  | none => (none, { st with misses := st.misses + 1 })

/-- `minimax::evaluate`: score difference from the side to move's
perspective. -/
def evaluate (b : Board) : Int :=
  if b.currentPlayer == PLAYER_1 then
    getScore b PLAYER_1 - getScore b PLAYER_2
  else
    getScore b PLAYER_2 - getScore b PLAYER_1

/-- The heuristic score `orderMoves` assigns to one move. -/
def moveOrderScore (ttEntry : Option TTEntry) (killers : KillerMoves)
    (history : HistoryTable) (ply : Int) (m : Move) : Int :=
  if ttEntry.any (fun e => m == e.bestMove) then 10000000
  else if killers.isKiller ply m then 1000000 + m.tileValue * 10
  else
    let s := history.getScore m + m.tileValue * 100
    let s := s + (if m.hexId == 9 then 50
      else if m.hexId == 4 || m.hexId == 6 || m.hexId == 7 ||
          m.hexId == 11 || m.hexId == 12 then 30
      else 0)
    s + (if m.hexId == 0 || m.hexId == 2 || m.hexId == 16 || m.hexId == 18 then 20 else 0)

/-- Descending order on `(score, original index)` pairs.  `std::sort` leaves
the order of equal-score pairs unspecified; the model resolves ties by the
original index (a stable order, as the spec recommends). -/
def pairBefore (x y : Int × Nat) : Bool :=
  y.1 < x.1 || (x.1 == y.1 && x.2 < y.2)

/-- Insertion step of the sort over `(score, index)` pairs. -/
def insertPair (x : Int × Nat) : List (Int × Nat) → List (Int × Nat)
  | [] => [x]
  | y :: ys => if pairBefore x y then x :: y :: ys else y :: insertPair x ys

/-- Sort of the `(score, index)` pairs, descending by score. -/
def sortPairs (l : List (Int × Nat)) : List (Int × Nat) :=
  l.foldr insertPair []

/-- `minimax::orderMoves`: score every move against the TT hint, the killer
table and the history table, sort the `(score, index)` pairs descending, and
rebuild the move list in that order. -/
def orderMoves (moves : List Move) (ttEntry : Option TTEntry)
    (killers : KillerMoves) (history : HistoryTable) (ply : Int) : List Move :=
  let moveScores := moves.enum.map
    (fun p => (moveOrderScore ttEntry killers history ply p.2, p.1))
  (sortPairs moveScores).map (fun p => moves.getD p.2 Move.null)

/-- The move loop of `alphaBeta` (step 7 of the spec): search each move with
the supplied recursive call, update the running best and alpha, and on a beta
cutoff record the killer and history updates and stop.  Arguments after the
move list: board, alpha, beta, bestScore, bestMove, flag, state. -/
def abLoop (recCall : Board → Int → Int → SearchState → Int × Board × SearchState)
    (depth ply : Int) :
    List Move → Board → Int → Int → Int → Move → TTFlag → SearchState →
    Int × Move × TTFlag × Board × SearchState
  | [], b, _, _, bestScore, bestMove, flag, st => (bestScore, bestMove, flag, b, st)
  | m :: rest, b, alpha, beta, bestScore, bestMove, flag, st =>
    let b1 := makeMove b m
    let r := recCall b1 (-beta) (-alpha) st
    let score := -r.1
    let b3 := unmakeMove r.2.1 m
    let st1 := r.2.2
    match (if bestScore < score then
        if alpha < score then (score, m, score, TTFlag.EXACT)
        else (score, m, alpha, flag)
      else (bestScore, bestMove, alpha, flag) : Int × Move × Int × TTFlag) with
    | (bestScore', bestMove', alpha', flag') =>
      if beta ≤ alpha' then
        let st2 : SearchState := { st1 with
          killers := st1.killers.update ply bestMove',
          history := st1.history.update bestMove' depth }
        (bestScore', bestMove', TTFlag.LOWER_BOUND, b3, st2)
      else abLoop recCall depth ply rest b3 alpha' beta bestScore' bestMove' flag' st1

/-- `minimax::alphaBeta`: count the node and poll the clock every
`TIMEOUT_CHECK_INTERVAL` nodes (returning the neutral score 0 on deadline);
evaluate at depth 0 or game over; probe the TT and use a sufficiently deep
entry for a cutoff or window tightening (marking it usable as ordering hint);
generate and order moves; run the move loop; store the result in the TT.
Returns the score together with the threaded board and state. -/
def alphaBeta (clk : Nat → Int) (timeLimitMs : Int) :
    Nat → Board → Int → Int → Int → Int → SearchState → Int × Board × SearchState
  | 0, b, _, _, _, _, st => (0, b, st)
  | fuel + 1, b, depth, alpha, beta, ply, st =>
    let st := { st with nodes := st.nodes + 1 }
    let polled : Option Int × SearchState :=
      if st.nodes % TIMEOUT_CHECK_INTERVAL == 0 then
        let elapsed := clk st.samples
        let st' : SearchState := { st with samples := st.samples + 1 }
        if timeLimitMs ≤ elapsed then (some 0, st') else (none, st')
      else (none, st)
    match polled with
    | (some v, st) => (v, b, st)
    | (none, st) =>
      if depth == 0 || isGameOver b then (evaluate b, b, st)
      else
        let hash := b.zobristHash
        match ttProbe st hash with
        | (ttHit, st) =>
          let ttRes : Sum Int (Int × Int × Option TTEntry) :=
            match ttHit with
            | none => Sum.inr (alpha, beta, none)
            | some e =>
              if depth ≤ e.depth then
                if e.flag = TTFlag.EXACT then Sum.inl e.score
                else
                  let alpha' := if e.flag = TTFlag.LOWER_BOUND then max alpha e.score else alpha
                  let beta' := if e.flag = TTFlag.UPPER_BOUND then min beta e.score else beta
                  if beta' ≤ alpha' then Sum.inl e.score
                  else Sum.inr (alpha', beta', some e)
              else Sum.inr (alpha, beta, none)
          match ttRes with
          | Sum.inl s => (s, b, st)
          | Sum.inr (alpha, beta, ttValid) =>
            let moves := getValidMoves b
            if moves.isEmpty then (evaluate b, b, st)
            else
              let moves := orderMoves moves ttValid st.killers st.history ply
              let recCall := fun b' a' c' st' =>
                alphaBeta clk timeLimitMs fuel b' (depth - 1) a' c' (ply + 1) st'
              match abLoop recCall depth ply moves b alpha beta (-INF)
                  (moves.headD Move.null) TTFlag.UPPER_BOUND st with
              | (bestScore, bestMove, flag, b', st') =>
                let st'' : SearchState :=
                  { st' with tt := ttStore st'.tt hash ⟨bestScore, depth, flag, bestMove⟩ }
                (bestScore, b', st'')

/-- The root move loop of one iterative-deepening depth: search each root
move, then poll the clock; on deadline abandon the depth (the move just
searched is not committed), otherwise fold the score into the current best
and alpha.  Arguments after the move list: board, alpha, beta,
currentBestMove, currentBestScore, state.  Returns the timed-out flag with
the partial best. -/
def rootLoopTO (recCall : Board → Int → Int → SearchState → Int × Board × SearchState)
    (clk : Nat → Int) (timeLimitMs : Int) :
    List Move → Board → Int → Int → Move → Int → SearchState →
    Bool × Move × Int × Board × SearchState
  | [], b, _, _, curMove, curScore, st => (false, curMove, curScore, b, st)
  | m :: rest, b, alpha, beta, curMove, curScore, st =>
    let b1 := makeMove b m
    let r := recCall b1 (-beta) (-alpha) st
    let score := -r.1
    let b3 := unmakeMove r.2.1 m
    let st1 := r.2.2
    let elapsed := clk st1.samples
    let st2 : SearchState := { st1 with samples := st1.samples + 1 }
    if timeLimitMs ≤ elapsed then (true, curMove, curScore, b3, st2)
    else
      match (if curScore < score then
          (m, score, if alpha < score then score else alpha)
        else (curMove, curScore, alpha) : Move × Int × Int) with
      | (curMove', curScore', alpha') =>
        rootLoopTO recCall clk timeLimitMs rest b3 alpha' beta curMove' curScore' st2

/-- The root move loop of the single-depth (non-iterative) branch: no clock
polling, fold each score into the running best and alpha.  Arguments after
the move list: board, alpha, beta, bestMove, bestScore, state. -/
def rootLoopSimple (recCall : Board → Int → Int → SearchState → Int × Board × SearchState) :
    List Move → Board → Int → Int → Move → Int → SearchState →
    Move × Int × Board × SearchState
  | [], b, _, _, bestMove, bestScore, st => (bestMove, bestScore, b, st)
  | m :: rest, b, alpha, beta, bestMove, bestScore, st =>
    let b1 := makeMove b m
    let r := recCall b1 (-beta) (-alpha) st
    let score := -r.1
    let b3 := unmakeMove r.2.1 m
    let st1 := r.2.2
    match (if bestScore < score then
        (m, score, if alpha < score then score else alpha)
      else (bestMove, bestScore, alpha) : Move × Int × Int) with
    | (bestMove', bestScore', alpha') =>
      rootLoopSimple recCall rest b3 alpha' beta bestMove' bestScore' st1

/-- `SearchResult`, with the C++ default-constructed field values; `timeMs`
(a C++ double) is modelled as the elapsed-milliseconds sample. -/
structure SearchResult where
  bestMove : Move := Move.null
  score : Int := 0
  nodesSearched : Nat := 0
  timeMs : Int := 0
  depth : Int := 0
  timeout : Bool := false
  ttHits : Nat := 0
  ttMisses : Nat := 0
deriving DecidableEq, Repr

/-- `SearchConfig` with its C++ default member values. -/
structure SearchConfig where
  maxDepth : Int := 20
  timeLimitMs : Int := 30000
  useIterativeDeepening : Bool := true
  useMoveOrdering : Bool := true
  useTranspositionTable : Bool := true
  ttSizeMB : Nat := 128
  verbose : Bool := false
deriving DecidableEq, Repr

/-- The accumulator of the iterative-deepening loop: the (reordered) root
move list, the threaded board, the committed best move / score / depth, the
accumulated node count and the search state. -/
structure IDAccum where
  moves : List Move
  b : Board
  bestMove : Move
  bestScore : Int
  resDepth : Int
  nodesAcc : Nat
  st : SearchState

/-- Outcome tag of one iterative-deepening depth. -/
inductive IDTag where
  | timedOut
  | mateStop
  | next

/-- The tail of one iterative-deepening depth, after the root loop has run:
on timeout keep the committed fields, otherwise commit this depth's best and
tag a mate stop or a continuation. -/
def idCommit (d : Int) (acc : IDAccum) (moves1 : List Move)
    (r : Bool × Move × Int × Board × SearchState) : IDAccum × IDTag :=
  if r.1 then
    ({ acc with moves := moves1, b := r.2.2.2.1, st := r.2.2.2.2 }, IDTag.timedOut)
  else
    let acc' : IDAccum :=
      { moves := moves1, b := r.2.2.2.1, bestMove := r.2.1, bestScore := r.2.2.1,
        resDepth := d, nodesAcc := acc.nodesAcc + r.2.2.2.2.nodes, st := r.2.2.2.2 }
    if MATE_SCORE - 100 < |r.2.2.1| then (acc', IDTag.mateStop) else (acc', IDTag.next)

/-- One depth of the iterative-deepening loop: reset the per-depth node
counter, reorder the root moves when past depth 1, run the root loop, and
commit per `idCommit`. -/
def idStep (clk : Nat → Int) (timeLimitMs : Int) (fuel : Nat) (d : Int)
    (acc : IDAccum) : IDAccum × IDTag :=
  let st := { acc.st with nodes := 0 }
  let moves1 := if 1 < d then orderMoves acc.moves none st.killers st.history 0 else acc.moves
  let recCall := fun b' a' c' st' => alphaBeta clk timeLimitMs fuel b' (d - 1) a' c' 1 st'
  idCommit d acc moves1
    (rootLoopTO recCall clk timeLimitMs moves1 acc.b (-INF) INF Move.null (-INF) st)

/-- The result bundle assembled after the iterative-deepening loop ends. -/
def finalizeID (acc : IDAccum) (tmo : Bool) (clk : Nat → Int) : SearchResult :=
  { bestMove := acc.bestMove, score := acc.bestScore, nodesSearched := acc.nodesAcc,
    timeMs := clk acc.st.samples, depth := acc.resDepth, timeout := tmo,
    ttHits := acc.st.hits, ttMisses := acc.st.misses }

/-- The iterative-deepening loop, counting down the remaining depths while
`d` counts up from 1. -/
def idGo (clk : Nat → Int) (timeLimitMs : Int) (fuel : Nat) :
    Nat → Int → IDAccum → SearchResult
  | 0, _, acc => finalizeID acc false clk
  | n + 1, d, acc =>
    match idStep clk timeLimitMs fuel d acc with
    | (acc', IDTag.timedOut) => finalizeID acc' true clk
    | (acc', IDTag.mateStop) => finalizeID acc' false clk
    | (acc', IDTag.next) => idGo clk timeLimitMs fuel n (d + 1) acc'

/-- `minimax::findBestMove`, taking the configuration fields it reads as
separate arguments (`useTranspositionTable` is never read by the C++
function, `verbose` only drives console output, and `ttSizeMB` only reserves
capacity): handle the no-move and single-move roots, then run either the
iterative-deepening loop or the single-depth root loop. -/
def findBestMoveCore (b : Board) (maxDepth timeLimitMs : Int)
    (useID useMO : Bool) (clk : Nat → Int) (fuel : Nat) : SearchResult :=
  let moves := getValidMoves b
  if moves.isEmpty then
    { bestMove := Move.null, score := evaluate b }
  else if moves.length == 1 then
    let m := moves.headD Move.null
    let b1 := makeMove b m
    match alphaBeta clk timeLimitMs fuel b1 (maxDepth - 1) (-INF) INF 0 SearchState.init with
    | (s0, b2, st1) =>
      let _b3 := unmakeMove b2 m
      { bestMove := m, score := -s0, depth := maxDepth,
        nodesSearched := st1.nodes, timeMs := clk st1.samples }
  else if useID then
    idGo clk timeLimitMs fuel maxDepth.toNat 1
      { moves := moves, b := b, bestMove := moves.headD Move.null,
        bestScore := -INF, resDepth := 0, nodesAcc := 0, st := SearchState.init }
  else
    let moves1 := if useMO then
        orderMoves moves none SearchState.init.killers SearchState.init.history 0
      else moves
    let recCall := fun b' a' c' st' =>
      alphaBeta clk timeLimitMs fuel b' (maxDepth - 1) a' c' 1 st'
    match rootLoopSimple recCall moves1 b (-INF) INF (moves.headD Move.null) (-INF)
        SearchState.init with
    | (bm, bs, _, st') =>
      { bestMove := bm, score := bs, nodesSearched := st'.nodes, depth := maxDepth,
        timeMs := clk st'.samples, ttHits := st'.hits, ttMisses := st'.misses }

/-- `minimax::findBestMove(board, config)`. -/
def findBestMove (b : Board) (config : SearchConfig) (clk : Nat → Int) (fuel : Nat) :
    SearchResult :=
  findBestMoveCore b config.maxDepth config.timeLimitMs config.useIterativeDeepening
    config.useMoveOrdering clk fuel

/-! ### The spec's root-ordering behavior (refinement target for C5) -/

/-- Modelled from the spec: one iterative-deepening depth as section 6.2
describes it — `useMoveOrdering = false` skips the ordering at the root
(inner nodes are still ordered inside `alphaBeta`).  Identical to `idStep`
except that the root reorder is guarded by the flag. -/
def idStepSpec (useMO : Bool) (clk : Nat → Int) (timeLimitMs : Int) (fuel : Nat)
    (d : Int) (acc : IDAccum) : IDAccum × IDTag :=
  let st := { acc.st with nodes := 0 }
  let moves1 := if useMO && 1 < d then orderMoves acc.moves none st.killers st.history 0
    else acc.moves
  let recCall := fun b' a' c' st' => alphaBeta clk timeLimitMs fuel b' (d - 1) a' c' 1 st'
  idCommit d acc moves1
    (rootLoopTO recCall clk timeLimitMs moves1 acc.b (-INF) INF Move.null (-INF) st)

/-- Modelled from the spec: the iterative-deepening loop over `idStepSpec`. -/
def idGoSpec (useMO : Bool) (clk : Nat → Int) (timeLimitMs : Int) (fuel : Nat) :
    Nat → Int → IDAccum → SearchResult
  | 0, _, acc => finalizeID acc false clk
  | n + 1, d, acc =>
    match idStepSpec useMO clk timeLimitMs fuel d acc with
    | (acc', IDTag.timedOut) => finalizeID acc' true clk
    | (acc', IDTag.mateStop) => finalizeID acc' false clk
    | (acc', IDTag.next) => idGoSpec useMO clk timeLimitMs fuel n (d + 1) acc'

/-- Modelled from the spec: `findBestMove` as section 6.2 describes the
`useMoveOrdering` flag — root ordering is skipped whenever the flag is false,
in the iterative-deepening branch too.  Identical to `findBestMoveCore`
everywhere else. -/
def findBestMoveSpecCore (b : Board) (maxDepth timeLimitMs : Int)
    (useID useMO : Bool) (clk : Nat → Int) (fuel : Nat) : SearchResult :=
  let moves := getValidMoves b
  if moves.isEmpty then
    { bestMove := Move.null, score := evaluate b }
  else if moves.length == 1 then
    let m := moves.headD Move.null
    let b1 := makeMove b m
    match alphaBeta clk timeLimitMs fuel b1 (maxDepth - 1) (-INF) INF 0 SearchState.init with
    | (s0, b2, st1) =>
      let _b3 := unmakeMove b2 m
      { bestMove := m, score := -s0, depth := maxDepth,
        nodesSearched := st1.nodes, timeMs := clk st1.samples }
  else if useID then
    idGoSpec useMO clk timeLimitMs fuel maxDepth.toNat 1
      { moves := moves, b := b, bestMove := moves.headD Move.null,
        bestScore := -INF, resDepth := 0, nodesAcc := 0, st := SearchState.init }
  else
    let moves1 := if useMO then
        orderMoves moves none SearchState.init.killers SearchState.init.history 0
      else moves
    let recCall := fun b' a' c' st' =>
      alphaBeta clk timeLimitMs fuel b' (maxDepth - 1) a' c' 1 st'
    match rootLoopSimple recCall moves1 b (-INF) INF (moves.headD Move.null) (-INF)
        SearchState.init with
    | (bm, bs, _, st') =>
      { bestMove := bm, score := bs, nodesSearched := st'.nodes, depth := maxDepth,
        timeMs := clk st'.samples, ttHits := st'.hits, ttMisses := st'.misses }

/-- Modelled from the spec: wrapper over `findBestMoveSpecCore`. -/
def findBestMoveSpec (b : Board) (config : SearchConfig) (clk : Nat → Int) (fuel : Nat) :
    SearchResult :=
  findBestMoveSpecCore b config.maxDepth config.timeLimitMs config.useIterativeDeepening
    config.useMoveOrdering clk fuel

/-! ### Concrete positions and clocks used in the search theorems -/

/-- A clock whose deadline never fires. -/
def clkZero : Nat → Int := fun _ => 0

/-- A near-full position: every hex occupied except the corners 0 and 2, with
asymmetric values, P1 holding the single tile 5 and P2 the single tile 2. -/
def boardTwoEmpty : Board :=
  let b0 : Board :=
    { hexOccupied := 524282,
      hexValues := [0, 3, 0, 1, 2, 1, 4, 1, 1, 5, 1, 1, 2, 1, 3, 1, 1, 2, 1],
      p1AvailableTiles := [5], p2AvailableTiles := [2], currentPlayer := 1,
      symmetryStillPossible := false, tilesAreIdentical := false, zobristHash := 0 }
  { b0 with zobristHash := fullHash b0 }

/-- A position with the three hexes of the left column empty, P1 holding
tiles 1 and 9 and P2 the single tile 5. -/
def boardThreeEmpty : Board :=
  let b0 : Board :=
    { hexOccupied := 524280,
      hexValues := [0, 0, 0, 1, 2, 1, 4, 1, 1, 5, 1, 1, 2, 1, 3, 1, 1, 2, 1],
      p1AvailableTiles := [1, 9], p2AvailableTiles := [5], currentPlayer := 1,
      symmetryStillPossible := false, tilesAreIdentical := false, zobristHash := 0 }
  { b0 with zobristHash := fullHash b0 }

/-- A clock that reads 0 on the first two samples and 1000 ms afterwards. -/
def clkLate : Nat → Int := fun n => if n < 2 then 0 else 1000

/-! ### C3: `maxDepth = 0` without iterative deepening is not a static
evaluation

With `maxDepth = 0` and `useIterativeDeepening = false` the root loop calls
`alphaBeta` with depth −1; the base case tests `depth == 0` exactly, so the
depth bound never stops the recursion and whole subtrees are searched down to
game over.  The documented meaning of `maxDepth` ("maximum depth to search")
and the spec agree that a depth-0 search should evaluate statically, so this
is a slip in the code. -/

/-- C3.  At `boardTwoEmpty` (two legal root moves), `findBestMove` with
`maxDepth = 0` and `useIterativeDeepening = false` returns a score obtained
by searching to the end of the game (113), not the static evaluation (−2). -/
theorem depth0_noID_not_static_eval :
    (findBestMove boardTwoEmpty
        { maxDepth := 0, useIterativeDeepening := false } clkZero 25).score
      ≠ evaluate boardTwoEmpty := by decide

/-! ### C4: the `useTranspositionTable` flag is never read -/

/-- C4 counterexample: with `useTranspositionTable = false` the search still
probes the transposition table (the returned miss counter is nonzero), so TT
operations are not no-ops. -/
theorem useTT_false_still_probes :
    (findBestMove boardTwoEmpty
        { maxDepth := 2, useIterativeDeepening := false,
          useTranspositionTable := false } clkZero 25).ttMisses ≠ 0 := by
  decide

/-- C4 (amended).  `findBestMove` never reads `useTranspositionTable`: the
result is identical whatever the flag's value (the call shape is unchanged,
and the TT is always consulted). -/
theorem useTT_flag_ignored (b : Board) (cfg : SearchConfig) (clk : Nat → Int)
    (fuel : Nat) :
    findBestMove b { cfg with useTranspositionTable := false } clk fuel
      = findBestMove b { cfg with useTranspositionTable := true } clk fuel := rfl

/-! ### C5: root-move ordering ignores `useMoveOrdering` under iterative
deepening -/

/-- C5 counterexample: with `useIterativeDeepening = true` and
`useMoveOrdering = false`, the search result differs from the spec's
behavior (no root reorder): the code reorders the root list before depth 2
regardless of the flag, changing the node count. -/
theorem rootOrder_reorders_despite_flag :
    findBestMove boardThreeEmpty
        { maxDepth := 2, useIterativeDeepening := true, useMoveOrdering := false,
          timeLimitMs := 100000 } clkZero 25
      ≠ findBestMoveSpec boardThreeEmpty
        { maxDepth := 2, useIterativeDeepening := true, useMoveOrdering := false,
          timeLimitMs := 100000 } clkZero 25 := by
  decide

/-- C5 (amended).  Only without iterative deepening does
`useMoveOrdering = false` leave the root list in `getValidMoves` order: in
that branch the code agrees with the spec's description of the flag for every
configuration; with iterative deepening the root list is reordered before
every depth past 1 regardless of the flag (see the counterexample), while
inner nodes are always ordered inside `alphaBeta` in both. -/
theorem no_root_reorder_without_ID (b : Board) (cfg : SearchConfig)
    (clk : Nat → Int) (fuel : Nat) (hID : cfg.useIterativeDeepening = false) :
    findBestMove b cfg clk fuel = findBestMoveSpec b cfg clk fuel := by
  unfold findBestMove findBestMoveSpec
  rw [hID]
  unfold findBestMoveCore findBestMoveSpecCore
  rfl

/-- C5 witness for the amended theorem: a concrete non-iterative,
non-ordering configuration where the code and the spec behavior agree. -/
theorem no_root_reorder_without_ID_witness :
    ({ maxDepth := 2, useIterativeDeepening := false, useMoveOrdering := false,
        timeLimitMs := 100000 } : SearchConfig).useIterativeDeepening = false ∧
    findBestMove boardThreeEmpty
        { maxDepth := 2, useIterativeDeepening := false, useMoveOrdering := false,
          timeLimitMs := 100000 } clkZero 25
      = findBestMoveSpec boardThreeEmpty
        { maxDepth := 2, useIterativeDeepening := false, useMoveOrdering := false,
          timeLimitMs := 100000 } clkZero 25 :=
  ⟨rfl, no_root_reorder_without_ID boardThreeEmpty _ clkZero 25 rfl⟩

/-! ### C2: a timed-out depth never contributes the reported result

One iterative-deepening step either times out — leaving the committed best
move, score, depth and node count untouched — or commits exactly depth `d`.
By induction, a run whose loop times out reports exactly what a run capped at
the last completed depth reports. -/

theorem idCommit_fields (d : Int) (acc : IDAccum) (moves1 : List Move)
    (r : Bool × Move × Int × Board × SearchState) (acc' : IDAccum) (tag : IDTag)
    (h : idCommit d acc moves1 r = (acc', tag)) :
    (tag = IDTag.timedOut →
      acc'.bestMove = acc.bestMove ∧ acc'.bestScore = acc.bestScore ∧
      acc'.resDepth = acc.resDepth ∧ acc'.nodesAcc = acc.nodesAcc) ∧
    (tag ≠ IDTag.timedOut → acc'.resDepth = d) := by
  unfold idCommit at h
  split at h
  · rw [Prod.mk.injEq] at h
    obtain ⟨h1, h2⟩ := h
    subst h1
    constructor
    · intro _
      exact ⟨rfl, rfl, rfl, rfl⟩
    · intro hne
      exact absurd h2.symm hne
  · split at h <;>
    · rw [Prod.mk.injEq] at h
      obtain ⟨h1, h2⟩ := h
      subst h1
      constructor
      · intro hto
        rw [← h2] at hto
        exact nomatch hto
      · intro _
        rfl

theorem idStep_fields (clk : Nat → Int) (lim : Int) (fuel : Nat) (d : Int)
    (acc acc' : IDAccum) (tag : IDTag)
    (h : idStep clk lim fuel d acc = (acc', tag)) :
    (tag = IDTag.timedOut →
      acc'.bestMove = acc.bestMove ∧ acc'.bestScore = acc.bestScore ∧
      acc'.resDepth = acc.resDepth ∧ acc'.nodesAcc = acc.nodesAcc) ∧
    (tag ≠ IDTag.timedOut → acc'.resDepth = d) := by
  unfold idStep at h
  exact idCommit_fields _ _ _ _ _ _ h

theorem idGo_depth_ge (clk : Nat → Int) (lim : Int) (fuel : Nat) :
    ∀ (n : Nat) (d : Int) (acc : IDAccum), acc.resDepth = d - 1 →
      d - 1 ≤ (idGo clk lim fuel n d acc).depth := by
  intro n
  induction n with
  | zero =>
    intro d acc h
    simp [idGo, finalizeID, h]
  | succ k ih =>
    intro d acc h
    rcases hstep : idStep clk lim fuel d acc with ⟨acc', tag⟩
    have hf := idStep_fields clk lim fuel d acc acc' tag hstep
    cases tag with
    | timedOut =>
      have hrd := (hf.1 rfl).2.2.1
      simp only [idGo, hstep]
      simp [finalizeID, hrd, h]
    | mateStop =>
      have hrd := hf.2 (fun hh => nomatch hh)
      simp only [idGo, hstep]
      simp [finalizeID, hrd]
    | next =>
      have hrd := hf.2 (fun hh => nomatch hh)
      simp only [idGo, hstep]
      have := ih (d + 1) acc' (by omega)
      omega

theorem idGo_timeout_last (clk : Nat → Int) (lim : Int) (fuel : Nat) :
    ∀ (n : Nat) (d : Int) (acc : IDAccum), acc.resDepth = d - 1 →
      (idGo clk lim fuel n d acc).timeout = true →
      ((idGo clk lim fuel ((idGo clk lim fuel n d acc).depth + 1 - d).toNat d acc).timeout
          = false ∧
        (idGo clk lim fuel ((idGo clk lim fuel n d acc).depth + 1 - d).toNat d acc).bestMove
          = (idGo clk lim fuel n d acc).bestMove ∧
        (idGo clk lim fuel ((idGo clk lim fuel n d acc).depth + 1 - d).toNat d acc).score
          = (idGo clk lim fuel n d acc).score ∧
        (idGo clk lim fuel ((idGo clk lim fuel n d acc).depth + 1 - d).toNat d acc).depth
          = (idGo clk lim fuel n d acc).depth ∧
        (idGo clk lim fuel ((idGo clk lim fuel n d acc).depth + 1 - d).toNat d acc).nodesSearched
          = (idGo clk lim fuel n d acc).nodesSearched) := by
  intro n
  induction n with
  | zero =>
    intro d acc h hT
    simp [idGo, finalizeID] at hT
  | succ k ih =>
    intro d acc h hT
    rcases hstep : idStep clk lim fuel d acc with ⟨acc', tag⟩
    have hf := idStep_fields clk lim fuel d acc acc' tag hstep
    cases tag with
    | timedOut =>
      obtain ⟨hbm, hbs, hrd, hna⟩ := hf.1 rfl
      simp only [idGo, hstep]
      have hidx : ((finalizeID acc' true clk).depth + 1 - d).toNat = 0 := by
        simp only [finalizeID]
        rw [hrd, h]
        omega
      rw [hidx]
      simp only [idGo]
      simp [finalizeID, hbm, hbs, hrd, hna]
    | mateStop =>
      simp only [idGo, hstep] at hT
      simp [finalizeID] at hT
    | next =>
      simp only [idGo, hstep] at hT ⊢
      have hgo := ih (d + 1) acc' (by
        have := hf.2 (fun hh => nomatch hh)
        omega) hT
      have hd : d ≤ (idGo clk lim fuel k (d + 1) acc').depth := by
        have := idGo_depth_ge clk lim fuel k (d + 1) acc' (by
          have := hf.2 (fun hh => nomatch hh)
          omega)
        omega
      have hidx : ((idGo clk lim fuel k (d + 1) acc').depth + 1 - d).toNat
          = ((idGo clk lim fuel k (d + 1) acc').depth + 1 - (d + 1)).toNat + 1 := by
        omega
      rw [hidx]
      simp only [idGo, hstep]
      exact hgo

/-- C2 at the level of `findBestMoveCore` with iterative deepening on. -/
theorem coreID_timeout_last (b : Board) (maxD tl : Int) (useMO : Bool)
    (clk : Nat → Int) (fuel : Nat)
    (hT : (findBestMoveCore b maxD tl true useMO clk fuel).timeout = true) :
    ((findBestMoveCore b (findBestMoveCore b maxD tl true useMO clk fuel).depth tl true useMO
        clk fuel).timeout = false ∧
      (findBestMoveCore b (findBestMoveCore b maxD tl true useMO clk fuel).depth tl true useMO
        clk fuel).bestMove = (findBestMoveCore b maxD tl true useMO clk fuel).bestMove ∧
      (findBestMoveCore b (findBestMoveCore b maxD tl true useMO clk fuel).depth tl true useMO
        clk fuel).score = (findBestMoveCore b maxD tl true useMO clk fuel).score ∧
      (findBestMoveCore b (findBestMoveCore b maxD tl true useMO clk fuel).depth tl true useMO
        clk fuel).depth = (findBestMoveCore b maxD tl true useMO clk fuel).depth ∧
      (findBestMoveCore b (findBestMoveCore b maxD tl true useMO clk fuel).depth tl true useMO
        clk fuel).nodesSearched
        = (findBestMoveCore b maxD tl true useMO clk fuel).nodesSearched) := by
  by_cases h1 : (getValidMoves b).isEmpty
  · exfalso
    simp [findBestMoveCore, h1] at hT
  · by_cases h2 : ((getValidMoves b).length == 1) = true
    · exfalso
      simp only [findBestMoveCore, h1, h2] at hT
      rcases halpha : alphaBeta clk tl fuel
          (makeMove b ((getValidMoves b).headD Move.null)) (maxD - 1) (-INF) INF 0
          SearchState.init with ⟨s0, b2, st1⟩
      rw [halpha] at hT
      simp at hT
    · simp only [findBestMoveCore, h1, h2] at hT ⊢
      simp only [Bool.false_eq_true, if_false, if_true] at hT ⊢
      have hgo := idGo_timeout_last clk tl fuel maxD.toNat 1
        { moves := getValidMoves b, b := b,
          bestMove := (getValidMoves b).headD Move.null, bestScore := -INF,
          resDepth := 0, nodesAcc := 0, st := SearchState.init } rfl hT
      rwa [Int.add_sub_cancel] at hgo

/-- C2.  When an iterative-deepening `findBestMove` call times out, the
returned result carries `timeout = true` and its best move, score, depth and
node count are exactly those of the run capped at the last fully completed
depth (`maxDepth := result.depth`), which itself completes without timeout —
nothing computed during the aborted depth is ever returned. -/
theorem findBestMove_timeout_last_completed (b : Board) (cfg : SearchConfig)
    (clk : Nat → Int) (fuel : Nat)
    (hID : cfg.useIterativeDeepening = true)
    (hT : (findBestMove b cfg clk fuel).timeout = true) :
    ((findBestMove b { cfg with maxDepth := (findBestMove b cfg clk fuel).depth } clk
        fuel).timeout = false ∧
      (findBestMove b { cfg with maxDepth := (findBestMove b cfg clk fuel).depth } clk
        fuel).bestMove = (findBestMove b cfg clk fuel).bestMove ∧
      (findBestMove b { cfg with maxDepth := (findBestMove b cfg clk fuel).depth } clk
        fuel).score = (findBestMove b cfg clk fuel).score ∧
      (findBestMove b { cfg with maxDepth := (findBestMove b cfg clk fuel).depth } clk
        fuel).depth = (findBestMove b cfg clk fuel).depth ∧
      (findBestMove b { cfg with maxDepth := (findBestMove b cfg clk fuel).depth } clk
        fuel).nodesSearched = (findBestMove b cfg clk fuel).nodesSearched) := by
  unfold findBestMove at hT ⊢
  dsimp only at hT ⊢
  rw [hID] at hT ⊢
  exact coreID_timeout_last b cfg.maxDepth cfg.timeLimitMs cfg.useMoveOrdering clk fuel hT

/-- C2 witness: at `boardTwoEmpty` with a 100 ms limit under `clkLate`, depth
1 completes and depth 2 aborts; the run reports depth 1 with `timeout = true`
and agrees with the `maxDepth = 1` run in all four reported fields. -/
theorem findBestMove_timeout_last_completed_witness :
    (({ maxDepth := 3, timeLimitMs := 100 } : SearchConfig).useIterativeDeepening = true ∧
      (findBestMove boardTwoEmpty { maxDepth := 3, timeLimitMs := 100 } clkLate 25).timeout
        = true) ∧
    ((findBestMove boardTwoEmpty
        { ({ maxDepth := 3, timeLimitMs := 100 } : SearchConfig) with
          maxDepth := (findBestMove boardTwoEmpty { maxDepth := 3, timeLimitMs := 100 }
            clkLate 25).depth } clkLate 25).timeout = false ∧
      (findBestMove boardTwoEmpty
        { ({ maxDepth := 3, timeLimitMs := 100 } : SearchConfig) with
          maxDepth := (findBestMove boardTwoEmpty { maxDepth := 3, timeLimitMs := 100 }
            clkLate 25).depth } clkLate 25).bestMove
        = (findBestMove boardTwoEmpty { maxDepth := 3, timeLimitMs := 100 }
            clkLate 25).bestMove ∧
      (findBestMove boardTwoEmpty
        { ({ maxDepth := 3, timeLimitMs := 100 } : SearchConfig) with
          maxDepth := (findBestMove boardTwoEmpty { maxDepth := 3, timeLimitMs := 100 }
            clkLate 25).depth } clkLate 25).score
        = (findBestMove boardTwoEmpty { maxDepth := 3, timeLimitMs := 100 }
            clkLate 25).score ∧
      (findBestMove boardTwoEmpty
        { ({ maxDepth := 3, timeLimitMs := 100 } : SearchConfig) with
          maxDepth := (findBestMove boardTwoEmpty { maxDepth := 3, timeLimitMs := 100 }
            clkLate 25).depth } clkLate 25).depth
        = (findBestMove boardTwoEmpty { maxDepth := 3, timeLimitMs := 100 }
            clkLate 25).depth ∧
      (findBestMove boardTwoEmpty
        { ({ maxDepth := 3, timeLimitMs := 100 } : SearchConfig) with
          maxDepth := (findBestMove boardTwoEmpty { maxDepth := 3, timeLimitMs := 100 }
            clkLate 25).depth } clkLate 25).nodesSearched
        = (findBestMove boardTwoEmpty { maxDepth := 3, timeLimitMs := 100 }
            clkLate 25).nodesSearched) :=
  ⟨⟨rfl, by decide⟩,
    findBestMove_timeout_last_completed boardTwoEmpty
      { maxDepth := 3, timeLimitMs := 100 } clkLate 25 rfl (by decide)⟩

end minimax

end hexuki
